import Mathlib

/-!
Verification of the progress reconciliation and synchronization subsystem
of the mobile backend (src/backend/server.py).

The embedding models the MongoDB collection user_progress as a list of
documents in insertion order; find_one is first-match lookup, insert_one
appends, update_one replaces the first matching document.  Python dicts
(completedStages, user point totals) are association lists that preserve
insertion order, with first-match lookup and in-place update.  Timestamps
are integers (seconds) paired, where stored, with a flag recording
whether the persisted ISO string carries a timezone offset, because the
stats fallback's date comparison fails on naive values; point counts are
integers; accuracy percentages are rationals.  The remote authority is modelled by explicit inputs
(an optional remote snapshot, remote stats values) and by an outcome
oracle for pushed sync payloads, since the code never lets a remote
response influence the local store or the HTTP result.
-/

namespace IRememberIt

/-- A stored stage completion entry, one value of the completedStages
dict in a user_progress document (server.py, save_stage_completion).
completedAt is stored as completion.completedAt.isoformat(): the integer
instant is paired with completedAtAware, recording whether that ISO
string carries a timezone offset.  The default-factory datetime.utcnow()
of the request model is naive, so records written without a
client-supplied offset have completedAtAware false. -/
structure StageRecord where
  cardId : String
  pointsEarned : Int
  completedAt : Int
  completedAtAware : Bool
  timeSpent : Int
  accuracy : Rat
deriving DecidableEq

/-- A user_progress document: one per (userId, moduleId) pair. -/
structure UserProgress where
  userId : String
  moduleId : String
  completedStages : List (String × StageRecord)
  totalPoints : Int
  highestStage : Int
  lastAccessed : Int
deriving DecidableEq

/-- The StageCompletion request model (server.py, class StageCompletion).
completedAt defaults to the naive datetime.utcnow(); completedAtAware is
true only when the client supplies a timestamp with a timezone offset. -/
structure StageCompletion where
  userId : String
  moduleId : String
  cardId : String
  stage : Int
  learningType : String
  pointsEarned : Int
  timeSpent : Int
  accuracy : Rat
  completedAt : Int
  completedAtAware : Bool
deriving DecidableEq

/-- The JSON body returned by save_stage_completion. -/
structure CompletionResult where
  success : Bool
  pointsAwarded : Int
  message : String
  alreadyCompleted : Bool
deriving DecidableEq

/-- One payload posted to the remote mobile sync endpoint. -/
structure SyncPayload where
  moduleId : String
  cardId : String
  learningType : String
  stage : Int
  timeSpent : Int
  passed : Bool
  accuracy : Rat
deriving DecidableEq

/-- Store state plus everything save_stage_completion produces: the list of
payloads actually posted (in posting order), the count of successful posts
(used only for logging in the source), and the HTTP result body. -/
structure RecordOutcome where
  store : List UserProgress
  pushes : List SyncPayload
  syncedCount : Nat
  result : CompletionResult
deriving DecidableEq

/-- db.user_progress.find_one on (userId, moduleId): first matching document. -/
def findRecord : List UserProgress → String → String → Option UserProgress
  | [], _, _ => none
  | r :: rest, u, m =>
    if r.userId = u ∧ r.moduleId = m then some r else findRecord rest u m

/-- update_one: replace the first document matching (userId, moduleId). -/
def updateRecord : List UserProgress → String → String → UserProgress → List UserProgress
  | [], _, _, _ => []
  | r :: rest, u, m, nr =>
    if r.userId = u ∧ r.moduleId = m then nr :: rest
    else r :: updateRecord rest u m nr

/-- Python dict lookup in an insertion-ordered association list. -/
def lookupStage : List (String × StageRecord) → String → Option StageRecord
  | [], _ => none
  | p :: rest, k => if p.1 = k then some p.2 else lookupStage rest k

/-- Python dict assignment d[k] = v: update in place if present, else append. -/
def dictInsert (stages : List (String × StageRecord)) (k : String) (v : StageRecord) :
    List (String × StageRecord) :=
  match lookupStage stages k with
  | some _ => stages.map (fun p => if p.1 = k then (k, v) else p)
  | none => stages ++ [(k, v)]

/-- progress_key = f-string of stage and learningType joined by a dash. -/
def progressKey (stage : Int) (learningType : String) : String :=
  toString stage ++ "-" ++ learningType

/-- learning_type_map: translation to the remote vocabulary; unknown
types pass through unchanged. -/
def learningTypeMap (lt : String) : String :=
  if lt = "fill_blank" then "fill-in-blank"
  else if lt = "word_cloud" then "word-cloud"
  else if lt = "verbal" then "verbal-speaking"
  else lt

/-- The body of the progressive sync loop for one stage number: the payload
posted for that stage, or none when the loop hits the continue branch
(stage not found in local progress).  Mirrors server.py lines 164-195. -/
def syncPayloadFor (c : StageCompletion) (stages : List (String × StageRecord))
    (stageNum : Int) : Option SyncPayload :=
  if stageNum = c.stage then
    some { moduleId := c.moduleId, cardId := c.cardId,
           learningType := learningTypeMap c.learningType, stage := stageNum,
           timeSpent := c.timeSpent, passed := c.pointsEarned > 0,
           accuracy := c.accuracy }
  else
    match lookupStage stages (progressKey stageNum c.learningType) with
    | some sd =>
      some { moduleId := c.moduleId, cardId := sd.cardId,
             learningType := learningTypeMap c.learningType, stage := stageNum,
             timeSpent := sd.timeSpent, passed := true, accuracy := sd.accuracy }
    | none => none

/-- The stage numbers 1, 2, ..., stage visited by range(1, stage + 1). -/
def stageNums (stage : Int) : List Int :=
  (List.range stage.toNat).map (fun i : Nat => (i : Int) + 1)

/-- The full progressive sync loop: payloads posted in ascending stage
order, skipping stages absent from local progress. -/
def buildSyncPayloads (c : StageCompletion) (stages : List (String × StageRecord)) :
    List SyncPayload :=
  (stageNums c.stage).filterMap (syncPayloadFor c stages)

/-- The StageRecord written for a completion event. -/
def recordOf (c : StageCompletion) : StageRecord :=
  { cardId := c.cardId, pointsEarned := c.pointsEarned,
    completedAt := c.completedAt, completedAtAware := c.completedAtAware,
    timeSpent := c.timeSpent,
    accuracy := c.accuracy }

/-- The sync phase of save_stage_completion: with an Authorization header
the loop re-reads the just-mutated document and posts the progressive
chain; remote outcomes feed only the logged synced counter.  The success
response is built afterwards in every case. -/
def finishSync (store1 : List UserProgress) (c : StageCompletion)
    (hasAuth : Bool) (remoteOk : SyncPayload → Bool) : RecordOutcome :=
  let pushes :=
    if hasAuth then
      let stages :=
        match findRecord store1 c.userId c.moduleId with
        | some r => r.completedStages
        | none => []
      buildSyncPayloads c stages
    else []
  { store := store1, pushes := pushes,
    syncedCount := (pushes.filter remoteOk).length,
    result := { success := true, pointsAwarded := c.pointsEarned,
                message := "Progress saved successfully",
                alreadyCompleted := false } }

/-- save_stage_completion (server.py lines 67-227).  hasAuth tells whether
the request carried an Authorization header; now is datetime.utcnow();
remoteOk gives each posted payload its remote outcome. -/
def recordCompletion (store : List UserProgress) (c : StageCompletion)
    (hasAuth : Bool) (now : Int) (remoteOk : SyncPayload → Bool) : RecordOutcome :=
  let key := progressKey c.stage c.learningType
  match findRecord store c.userId c.moduleId with
  | some existing =>
    if (lookupStage existing.completedStages key).isSome then
      { store := store, pushes := [], syncedCount := 0,
        result := { success := true, pointsAwarded := 0,
                    message := "Stage already completed",
                    alreadyCompleted := true } }
    else
      let updated : UserProgress :=
        { existing with
          completedStages := dictInsert existing.completedStages key (recordOf c),
          totalPoints := existing.totalPoints + c.pointsEarned,
          highestStage := max existing.highestStage c.stage,
          lastAccessed := now }
      finishSync (updateRecord store c.userId c.moduleId updated) c hasAuth remoteOk
  | none =>
    let newRec : UserProgress :=
      { userId := c.userId, moduleId := c.moduleId,
        completedStages := [(key, recordOf c)],
        totalPoints := c.pointsEarned,
        highestStage := c.stage,
        lastAccessed := now }
    finishSync (store ++ [newRec]) c hasAuth remoteOk

/-- Whether the completion key of c is already present for (userId, moduleId). -/
def isCompleted (store : List UserProgress) (c : StageCompletion) : Bool :=
  match findRecord store c.userId c.moduleId with
  | some r => (lookupStage r.completedStages (progressKey c.stage c.learningType)).isSome
  | none => false

/-- totalPoints of the stored document for (u, m), 0 when absent. -/
def getTotalPoints (store : List UserProgress) (u m : String) : Int :=
  match findRecord store u m with
  | some r => r.totalPoints
  | none => 0

/-! ## Progress merging (get_user_progress, server.py lines 710-769) -/

/-- The remote progress snapshot fetched from the web API (fields the
merge reads or passes through). -/
structure RemoteProgress where
  completedStages : List (String × StageRecord)
  totalPoints : Int
  highestStage : Int
deriving DecidableEq

/-- The merged view returned to the client. -/
structure ProgressView where
  completedStages : List (String × StageRecord)
  totalPoints : Int
  highestStage : Int
deriving DecidableEq

/-- The merge loop: for every local stage key not already in web_stages,
assign it into web_stages (which, the key being absent, appends it). -/
def mergeStages (webStages localStages : List (String × StageRecord)) :
    List (String × StageRecord) :=
  localStages.foldl
    (fun acc p => if (lookupStage acc p.1).isSome then acc else acc ++ [p]) webStages

/-- get_user_progress: remote snapshot (when present) is the base; local
stages fill gaps; remote totals pass through.  Without remote, the local
document is returned; without either, a zero default. -/
def getUserProgress (web : Option RemoteProgress) (store : List UserProgress)
    (u m : String) : ProgressView :=
  let localProgress := findRecord store u m
  match web with
  | some wp =>
    let merged :=
      match localProgress with
      | some lp => mergeStages wp.completedStages lp.completedStages
      | none => wp.completedStages
    { completedStages := merged, totalPoints := wp.totalPoints,
      highestStage := wp.highestStage }
  | none =>
    match localProgress with
    | some lp =>
      { completedStages := lp.completedStages, totalPoints := lp.totalPoints,
        highestStage := lp.highestStage }
    | none => { completedStages := [], totalPoints := 0, highestStage := 1 }

/-! ## User stats (get_user_stats, server.py lines 309-399) -/

/-- The web_stats dict after the remote fetch (zeroed defaults on failure). -/
structure WebStats where
  totalPoints : Int
  weeklyPoints : Int
  rank : Option Int
deriving DecidableEq

/-- The JSON body returned by get_user_stats. -/
structure StatsView where
  totalPoints : Int
  weeklyPoints : Int
  rank : Option Int
  userId : String
deriving DecidableEq

/-- Python `a or b` on integers: 0 is falsy, everything else truthy. -/
def pyOrInt (a b : Int) : Int := if a = 0 then b else a

/-- The documents the user cursor db.user_progress.find on userId yields,
in store order. -/
def userDocs : List UserProgress → String → List UserProgress
  | [], _ => []
  | r :: rest, u =>
    if r.userId = u then r :: userDocs rest u else userDocs rest u

/-- one_week_ago = now minus seven days, in seconds. -/
def weekCutoff (now : Int) : Int := now - 7 * 86400

/-- The inner loop of the local fallback: add pointsEarned of every stage
entry that survives the guarded comparison.  The source (server.py lines
371-384) wraps the parse and the compare in try/except-continue: the
stored string is always present and parseable (this code writes it via
isoformat), but comparing a naive parsed datetime with the timezone-aware
one_week_ago raises TypeError, which is caught and the entry skipped.  So
only entries whose stored timestamp is timezone aware are compared at
all; for those the cutoff test is inclusive. -/
def stageWeeklyPoints (now : Int) (stages : List (String × StageRecord)) : Int :=
  stages.foldl
    (fun acc p =>
      if p.2.completedAtAware then
        if weekCutoff now ≤ p.2.completedAt then acc + p.2.pointsEarned else acc
      else acc) 0

/-- local_total_points: sum of totalPoints over the user documents. -/
def localTotalPoints (store : List UserProgress) (u : String) : Int :=
  (userDocs store u).foldl (fun acc r => acc + r.totalPoints) 0

/-- local_weekly_points: sum of recent pointsEarned over the user documents. -/
def localWeeklyPoints (store : List UserProgress) (u : String) (now : Int) : Int :=
  (userDocs store u).foldl (fun acc r => acc + stageWeeklyPoints now r.completedStages) 0

/-- get_user_stats: remote value when truthy, else the local fallback;
rank passes through from web_stats with no fallback. -/
def getUserStats (web : WebStats) (store : List UserProgress) (u : String)
    (now : Int) : StatsView :=
  { totalPoints := pyOrInt web.totalPoints (localTotalPoints store u),
    weeklyPoints := pyOrInt web.weeklyPoints (localWeeklyPoints store u now),
    rank := web.rank,
    userId := u }

/-! ## Local leaderboard fallback (get_mobile_leaderboard, lines 646-682) -/

/-- One entry of the locally built leaderboard. -/
structure LeaderboardEntry where
  userId : String
  rank : Nat
  totalPoints : Int
  name : Option String
  email : Option String
deriving DecidableEq

/-- user_totals accumulation for one document: add to an existing user in
place, else append the user at the end (Python dict insertion order). -/
def addUserPoints : List (String × Int) → String → Int → List (String × Int)
  | [], u, p => [(u, p)]
  | t :: rest, u, p =>
    if t.1 = u then (t.1, t.2 + p) :: rest else t :: addUserPoints rest u p

/-- Aggregate totalPoints per userId over the scanned documents. -/
def aggregateTotals (docs : List UserProgress) : List (String × Int) :=
  docs.foldl (fun acc d => addUserPoints acc d.userId d.totalPoints) []

/-- Stable insertion for a descending sort on the point total: an element
goes before the first strictly smaller total, after equal ones already
placed from earlier in the input. -/
def insertDesc (x : String × Int) : List (String × Int) → List (String × Int)
  | [] => [x]
  | y :: rest => if y.2 ≤ x.2 then x :: y :: rest else y :: insertDesc x rest

/-- Python sorted with reverse on the point total: stable, descending. -/
def sortDesc : List (String × Int) → List (String × Int)
  | [] => []
  | x :: rest => insertDesc x (sortDesc rest)

/-- enumerate(sorted_users, 1): consecutive ranks from a start value. -/
def assignRanks : Nat → List (String × Int) → List LeaderboardEntry
  | _, [] => []
  | r, p :: rest =>
    { userId := p.1, rank := r, totalPoints := p.2, name := none, email := none }
      :: assignRanks (r + 1) rest

/-- The local fallback of get_mobile_leaderboard: scan at most 1000
documents, aggregate per user, sort descending by points, rank from 1. -/
def buildLocalLeaderboard (store : List UserProgress) : List LeaderboardEntry :=
  assignRanks 1 (sortDesc (aggregateTotals (store.take 1000)))

/-! ## Shared lemmas about the store and dictionary model -/

theorem lookupStage_append (xs ys : List (String × StageRecord)) (k : String) :
    lookupStage (xs ++ ys) k =
      match lookupStage xs k with
      | some v => some v
      | none => lookupStage ys k := by
  induction xs with
  | nil => simp [lookupStage]
  | cons p rest ih =>
    by_cases h : p.1 = k
    · simp [lookupStage, h]
    · simp only [List.cons_append, lookupStage, if_neg h]
      simpa using ih

theorem lookupStage_append_of_some {xs : List (String × StageRecord)}
    (ys : List (String × StageRecord)) {k : String} {v : StageRecord}
    (h : lookupStage xs k = some v) : lookupStage (xs ++ ys) k = some v := by
  rw [lookupStage_append, h]

theorem lookupStage_append_of_none {xs : List (String × StageRecord)}
    (ys : List (String × StageRecord)) {k : String}
    (h : lookupStage xs k = none) : lookupStage (xs ++ ys) k = lookupStage ys k := by
  rw [lookupStage_append, h]

theorem dictInsert_of_none {stages : List (String × StageRecord)} {k : String}
    (v : StageRecord) (h : lookupStage stages k = none) :
    dictInsert stages k v = stages ++ [(k, v)] := by
  simp [dictInsert, h]

theorem lookupStage_append_self {stages : List (String × StageRecord)} {k : String}
    (v : StageRecord) (h : lookupStage stages k = none) :
    lookupStage (stages ++ [(k, v)]) k = some v := by
  rw [lookupStage_append_of_none _ h]; simp [lookupStage]

theorem findRecord_ids {store : List UserProgress} {u m : String} {r : UserProgress}
    (h : findRecord store u m = some r) : r.userId = u ∧ r.moduleId = m := by
  induction store with
  | nil => simp [findRecord] at h
  | cons x rest ih =>
    by_cases hx : x.userId = u ∧ x.moduleId = m
    · simp [findRecord, hx] at h
      rw [← h]; exact hx
    · simp only [findRecord, if_neg hx] at h
      exact ih h

theorem findRecord_mem {store : List UserProgress} {u m : String} {r : UserProgress}
    (h : findRecord store u m = some r) : r ∈ store := by
  induction store with
  | nil => simp [findRecord] at h
  | cons x rest ih =>
    by_cases hx : x.userId = u ∧ x.moduleId = m
    · simp [findRecord, hx] at h
      simp [← h]
    · simp only [findRecord, if_neg hx] at h
      exact List.mem_cons_of_mem _ (ih h)

theorem findRecord_append (s1 s2 : List UserProgress) (u m : String) :
    findRecord (s1 ++ s2) u m =
      match findRecord s1 u m with
      | some r => some r
      | none => findRecord s2 u m := by
  induction s1 with
  | nil => simp [findRecord]
  | cons x rest ih =>
    by_cases hx : x.userId = u ∧ x.moduleId = m
    · simp [findRecord, hx]
    · simp only [List.cons_append, findRecord, if_neg hx]
      simpa using ih

theorem findRecord_updateRecord {store : List UserProgress} {u m : String}
    {ex : UserProgress} (nr : UserProgress) (h : findRecord store u m = some ex)
    (hu : nr.userId = u) (hm : nr.moduleId = m) :
    findRecord (updateRecord store u m nr) u m = some nr := by
  induction store with
  | nil => simp [findRecord] at h
  | cons x rest ih =>
    by_cases hx : x.userId = u ∧ x.moduleId = m
    · simp [updateRecord, hx, findRecord, hu, hm]
    · simp only [findRecord, if_neg hx] at h
      simp only [updateRecord, if_neg hx, findRecord]
      exact ih h

theorem updateRecord_mem {store : List UserProgress} {u m : String}
    {nr r : UserProgress} (h : r ∈ updateRecord store u m nr) :
    r ∈ store ∨ r = nr := by
  induction store with
  | nil => simp [updateRecord] at h
  | cons x rest ih =>
    by_cases hx : x.userId = u ∧ x.moduleId = m
    · simp only [updateRecord, if_pos hx] at h
      rcases List.mem_cons.mp h with h1 | h1
      · right; exact h1
      · left; exact List.mem_cons_of_mem _ h1
    · simp only [updateRecord, if_neg hx] at h
      rcases List.mem_cons.mp h with h1 | h1
      · left; simp [h1]
      · rcases ih h1 with h2 | h2
        · left; exact List.mem_cons_of_mem _ h2
        · right; exact h2

theorem finishSync_store (s : List UserProgress) (c : StageCompletion)
    (hasAuth : Bool) (rOk : SyncPayload → Bool) :
    (finishSync s c hasAuth rOk).store = s := rfl

theorem finishSync_result (s : List UserProgress) (c : StageCompletion)
    (hasAuth : Bool) (rOk : SyncPayload → Bool) :
    (finishSync s c hasAuth rOk).result =
      { success := true, pointsAwarded := c.pointsEarned,
        message := "Progress saved successfully", alreadyCompleted := false } := rfl

theorem finishSync_pushes (s : List UserProgress) (c : StageCompletion)
    (hasAuth : Bool) (rOk : SyncPayload → Bool) :
    (finishSync s c hasAuth rOk).pushes =
      if hasAuth then
        buildSyncPayloads c
          (match findRecord s c.userId c.moduleId with
           | some r => r.completedStages
           | none => [])
      else [] := rfl

/-- The document stored for (userId, moduleId) after a fresh (non-duplicate)
completion: the updated existing document, or the newly created one. -/
def afterRecord (store : List UserProgress) (c : StageCompletion) (now : Int) :
    UserProgress :=
  match findRecord store c.userId c.moduleId with
  | some ex =>
    { ex with
      completedStages :=
        dictInsert ex.completedStages (progressKey c.stage c.learningType) (recordOf c),
      totalPoints := ex.totalPoints + c.pointsEarned,
      highestStage := max ex.highestStage c.stage,
      lastAccessed := now }
  | none =>
    { userId := c.userId, moduleId := c.moduleId,
      completedStages := [(progressKey c.stage c.learningType, recordOf c)],
      totalPoints := c.pointsEarned,
      highestStage := c.stage,
      lastAccessed := now }

theorem lookupStage_of_not_completed {store : List UserProgress}
    {c : StageCompletion} {ex : UserProgress}
    (hn : isCompleted store c = false)
    (hf : findRecord store c.userId c.moduleId = some ex) :
    lookupStage ex.completedStages (progressKey c.stage c.learningType) = none := by
  unfold isCompleted at hn
  rw [hf] at hn
  change (lookupStage ex.completedStages
    (progressKey c.stage c.learningType)).isSome = false at hn
  cases hopt : lookupStage ex.completedStages (progressKey c.stage c.learningType) with
  | none => rfl
  | some v => rw [hopt] at hn; simp at hn

theorem recordCompletion_of_completed {store : List UserProgress}
    {c : StageCompletion} (hasAuth : Bool) (now : Int) (rOk : SyncPayload → Bool)
    (hc : isCompleted store c = true) :
    recordCompletion store c hasAuth now rOk =
      { store := store, pushes := [], syncedCount := 0,
        result := { success := true, pointsAwarded := 0,
                    message := "Stage already completed",
                    alreadyCompleted := true } } := by
  unfold isCompleted at hc
  cases hf : findRecord store c.userId c.moduleId with
  | none => rw [hf] at hc; simp at hc
  | some ex =>
    rw [hf] at hc
    change (lookupStage ex.completedStages
      (progressKey c.stage c.learningType)).isSome = true at hc
    simp [recordCompletion, hf, hc]

theorem recordCompletion_store_of_not_completed {store : List UserProgress}
    {c : StageCompletion} (hasAuth : Bool) (now : Int) (rOk : SyncPayload → Bool)
    (hn : isCompleted store c = false) :
    (recordCompletion store c hasAuth now rOk).store =
      match findRecord store c.userId c.moduleId with
      | some _ => updateRecord store c.userId c.moduleId (afterRecord store c now)
      | none => store ++ [afterRecord store c now] := by
  cases hf : findRecord store c.userId c.moduleId with
  | none => simp [recordCompletion, hf, finishSync_store, afterRecord]
  | some ex =>
    have hnone := lookupStage_of_not_completed hn hf
    simp [recordCompletion, hf, hnone, finishSync_store, afterRecord]

theorem recordCompletion_result_of_not_completed {store : List UserProgress}
    {c : StageCompletion} (hasAuth : Bool) (now : Int) (rOk : SyncPayload → Bool)
    (hn : isCompleted store c = false) :
    (recordCompletion store c hasAuth now rOk).result =
      { success := true, pointsAwarded := c.pointsEarned,
        message := "Progress saved successfully", alreadyCompleted := false } := by
  cases hf : findRecord store c.userId c.moduleId with
  | none => simp [recordCompletion, hf, finishSync_result]
  | some ex =>
    have hnone := lookupStage_of_not_completed hn hf
    simp [recordCompletion, hf, hnone, finishSync_result]

theorem findRecord_after {store : List UserProgress} {c : StageCompletion}
    {hasAuth : Bool} {now : Int} {rOk : SyncPayload → Bool}
    (hn : isCompleted store c = false) :
    findRecord (recordCompletion store c hasAuth now rOk).store c.userId c.moduleId
      = some (afterRecord store c now) := by
  rw [recordCompletion_store_of_not_completed hasAuth now rOk hn]
  cases hf : findRecord store c.userId c.moduleId with
  | none =>
    rw [findRecord_append, hf]
    simp [findRecord, afterRecord, hf]
  | some ex =>
    have hids := findRecord_ids hf
    refine findRecord_updateRecord _ hf ?_ ?_
    · simp [afterRecord, hf, hids.1]
    · simp [afterRecord, hf, hids.2]

theorem afterRecord_lookup_self (store : List UserProgress) (c : StageCompletion)
    (now : Int) (hn : isCompleted store c = false) :
    lookupStage (afterRecord store c now).completedStages
      (progressKey c.stage c.learningType) = some (recordOf c) := by
  unfold afterRecord
  cases hf : findRecord store c.userId c.moduleId with
  | none => simp [lookupStage]
  | some ex =>
    have hnone := lookupStage_of_not_completed hn hf
    simp only
    rw [dictInsert_of_none _ hnone]
    exact lookupStage_append_self _ hnone

theorem isCompleted_after {store : List UserProgress} {c : StageCompletion}
    {hasAuth : Bool} {now : Int} {rOk : SyncPayload → Bool}
    (hn : isCompleted store c = false) :
    isCompleted (recordCompletion store c hasAuth now rOk).store c = true := by
  unfold isCompleted
  rw [findRecord_after hn]
  change (lookupStage (afterRecord store c now).completedStages
    (progressKey c.stage c.learningType)).isSome = true
  rw [afterRecord_lookup_self store c now hn]
  rfl

theorem getTotalPoints_after {store : List UserProgress} {c : StageCompletion}
    {hasAuth : Bool} {now : Int} {rOk : SyncPayload → Bool}
    (hn : isCompleted store c = false) :
    getTotalPoints (recordCompletion store c hasAuth now rOk).store c.userId c.moduleId
      = getTotalPoints store c.userId c.moduleId + c.pointsEarned := by
  unfold getTotalPoints
  rw [findRecord_after hn]
  unfold afterRecord
  cases hf : findRecord store c.userId c.moduleId with
  | none => simp
  | some ex => simp

theorem recordCompletion_oracle_independent (store : List UserProgress)
    (c : StageCompletion) (hasAuth : Bool) (now : Int)
    (rOk rOk2 : SyncPayload → Bool) :
    (recordCompletion store c hasAuth now rOk).store
        = (recordCompletion store c hasAuth now rOk2).store ∧
    (recordCompletion store c hasAuth now rOk).pushes
        = (recordCompletion store c hasAuth now rOk2).pushes ∧
    (recordCompletion store c hasAuth now rOk).result
        = (recordCompletion store c hasAuth now rOk2).result := by
  cases hf : findRecord store c.userId c.moduleId with
  | none =>
    refine ⟨?_, ?_, ?_⟩ <;> simp [recordCompletion, hf, finishSync]
  | some ex =>
    by_cases hb :
        (lookupStage ex.completedStages (progressKey c.stage c.learningType)).isSome
    · refine ⟨?_, ?_, ?_⟩ <;> simp [recordCompletion, hf, hb, finishSync]
    · refine ⟨?_, ?_, ?_⟩ <;> simp [recordCompletion, hf, hb, finishSync]

theorem recordCompletion_eq_finishSync {store : List UserProgress}
    {c : StageCompletion} (hasAuth : Bool) (now : Int) (rOk : SyncPayload → Bool)
    (hn : isCompleted store c = false) :
    recordCompletion store c hasAuth now rOk =
      finishSync (recordCompletion store c hasAuth now rOk).store c hasAuth rOk := by
  cases hf : findRecord store c.userId c.moduleId with
  | none => simp [recordCompletion, hf, finishSync_store]
  | some ex =>
    have hnone := lookupStage_of_not_completed hn hf
    simp [recordCompletion, hf, hnone, finishSync_store]

theorem recordCompletion_pushes_of_not_completed {store : List UserProgress}
    {c : StageCompletion} (hasAuth : Bool) (now : Int) (rOk : SyncPayload → Bool)
    (hn : isCompleted store c = false) :
    (recordCompletion store c hasAuth now rOk).pushes =
      if hasAuth then
        buildSyncPayloads c (afterRecord store c now).completedStages
      else [] := by
  rw [recordCompletion_eq_finishSync hasAuth now rOk hn, finishSync_pushes,
      findRecord_after hn]

theorem filterMap_map_eq_of_forall {α β : Type} (f : α → Option β) (g : β → α)
    (l : List α) (h : ∀ a ∈ l, ∃ b, f a = some b ∧ g b = a) :
    (l.filterMap f).map g = l := by
  induction l with
  | nil => simp
  | cons x rest ih =>
    obtain ⟨b, hb, hgb⟩ := h x (List.mem_cons_self x rest)
    rw [List.filterMap_cons, hb]
    simp only [List.map_cons, hgb]
    rw [ih (fun a ha => h a (List.mem_cons_of_mem _ ha))]

theorem syncPayloadFor_stage {c : StageCompletion}
    {stages : List (String × StageRecord)} {i : Int} {p : SyncPayload}
    (h : syncPayloadFor c stages i = some p) : p.stage = i := by
  unfold syncPayloadFor at h
  by_cases hic : i = c.stage
  · rw [if_pos hic] at h
    rw [← Option.some.inj h]
  · rw [if_neg hic] at h
    cases hsd : lookupStage stages (progressKey i c.learningType) with
    | none => rw [hsd] at h; cases h
    | some sd =>
      rw [hsd] at h
      rw [← Option.some.inj h]

theorem mem_stageNums {N i : Int} : i ∈ stageNums N ↔ 1 ≤ i ∧ i ≤ N := by
  unfold stageNums
  rw [List.mem_map]
  constructor
  · rintro ⟨j, hj, rfl⟩
    rw [List.mem_range, Int.lt_toNat] at hj
    omega
  · rintro ⟨h1, h2⟩
    refine ⟨(i - 1).toNat, ?_, ?_⟩
    · rw [List.mem_range, Int.lt_toNat, Int.toNat_of_nonneg (by omega)]
      omega
    · show ((i - 1).toNat : Int) + 1 = i
      omega

theorem stageNums_length (N : Int) : (stageNums N).length = N.toNat := by
  unfold stageNums
  rw [List.length_map, List.length_range]

/-- Sum of pointsEarned over a completedStages dict. -/
def sumPoints (stages : List (String × StageRecord)) : Int :=
  (stages.map (fun p => p.2.pointsEarned)).sum

/-- The invariant of C5: the aggregate equals the sum of the parts. -/
def pointsConsistent (r : UserProgress) : Prop :=
  r.totalPoints = sumPoints r.completedStages

theorem sumPoints_append (xs : List (String × StageRecord)) (k : String)
    (v : StageRecord) : sumPoints (xs ++ [(k, v)]) = sumPoints xs + v.pointsEarned := by
  simp [sumPoints]

theorem mergeStages_step (acc : List (String × StageRecord))
    (p : String × StageRecord) (rest : List (String × StageRecord)) :
    mergeStages acc (p :: rest)
      = mergeStages (if (lookupStage acc p.1).isSome then acc else acc ++ [p]) rest := rfl

theorem mergeStages_suffix (localStages : List (String × StageRecord)) :
    ∀ acc, ∃ r, mergeStages acc localStages = acc ++ r := by
  induction localStages with
  | nil =>
    intro acc
    exact ⟨[], by simp [mergeStages]⟩
  | cons p rest ih =>
    intro acc
    rw [mergeStages_step]
    by_cases hp : (lookupStage acc p.1).isSome
    · rw [if_pos hp]
      exact ih acc
    · rw [if_neg hp]
      obtain ⟨r, hr⟩ := ih (acc ++ [p])
      exact ⟨[p] ++ r, by rw [hr, List.append_assoc]⟩

theorem mergeStages_lookup_of_web {web localStages : List (String × StageRecord)}
    {k : String} {v : StageRecord} (h : lookupStage web k = some v) :
    lookupStage (mergeStages web localStages) k = some v := by
  obtain ⟨r, hr⟩ := mergeStages_suffix localStages web
  rw [hr]
  exact lookupStage_append_of_some _ h

theorem mergeStages_lookup_of_local (localStages : List (String × StageRecord)) :
    ∀ (web : List (String × StageRecord)) (k : String) (v : StageRecord),
      lookupStage web k = none → lookupStage localStages k = some v →
      lookupStage (mergeStages web localStages) k = some v := by
  induction localStages with
  | nil =>
    intro web k v _ hl
    simp [lookupStage] at hl
  | cons p rest ih =>
    intro web k v hw hl
    rw [mergeStages_step]
    by_cases hpk : p.1 = k
    · simp only [lookupStage, if_pos hpk] at hl
      have hwp : (lookupStage web p.1).isSome = false := by
        rw [hpk, hw]; rfl
      rw [hwp]
      simp only [Bool.false_eq_true, if_false]
      refine mergeStages_lookup_of_web ?_
      rw [← hl, lookupStage_append_of_none _ hw]
      simp [lookupStage, hpk]
    · simp only [lookupStage, if_neg hpk] at hl
      by_cases hp : (lookupStage web p.1).isSome
      · rw [if_pos hp]
        exact ih web k v hw hl
      · rw [if_neg hp]
        refine ih (web ++ [p]) k v ?_ hl
        rw [lookupStage_append_of_none _ hw]
        simp [lookupStage, hpk]

theorem insertDesc_mem {x z : String × Int} {l : List (String × Int)}
    (h : z ∈ insertDesc x l) : z = x ∨ z ∈ l := by
  induction l with
  | nil =>
    simp [insertDesc] at h
    exact Or.inl h
  | cons y rest ih =>
    unfold insertDesc at h
    by_cases hc : y.2 ≤ x.2
    · rw [if_pos hc] at h
      rcases List.mem_cons.mp h with h2 | h2
      · exact Or.inl h2
      · exact Or.inr h2
    · rw [if_neg hc] at h
      rcases List.mem_cons.mp h with h2 | h2
      · exact Or.inr (by rw [h2]; exact List.mem_cons_self _ _)
      · rcases ih h2 with h3 | h3
        · exact Or.inl h3
        · exact Or.inr (List.mem_cons_of_mem _ h3)

theorem insertDesc_pairwise {x : String × Int} {l : List (String × Int)}
    (h : l.Pairwise (fun a b => b.2 ≤ a.2)) :
    (insertDesc x l).Pairwise (fun a b => b.2 ≤ a.2) := by
  induction l with
  | nil => simp [insertDesc]
  | cons y rest ih =>
    rw [List.pairwise_cons] at h
    obtain ⟨hy, hrest⟩ := h
    unfold insertDesc
    by_cases hc : y.2 ≤ x.2
    · rw [if_pos hc]
      refine List.Pairwise.cons ?_ (List.Pairwise.cons hy hrest)
      intro z hz
      rcases List.mem_cons.mp hz with h2 | h2
      · rw [h2]; exact hc
      · exact le_trans (hy z h2) hc
    · rw [if_neg hc]
      refine List.Pairwise.cons ?_ (ih hrest)
      intro z hz
      rcases insertDesc_mem hz with h2 | h2
      · rw [h2]; omega
      · exact hy z h2

theorem sortDesc_pairwise (l : List (String × Int)) :
    (sortDesc l).Pairwise (fun a b => b.2 ≤ a.2) := by
  induction l with
  | nil => simp [sortDesc]
  | cons x rest ih =>
    show (insertDesc x (sortDesc rest)).Pairwise (fun a b => b.2 ≤ a.2)
    exact insertDesc_pairwise ih

theorem assignRanks_cons (r : Nat) (p : String × Int) (rest : List (String × Int)) :
    assignRanks r (p :: rest)
      = { userId := p.1, rank := r, totalPoints := p.2, name := none,
          email := none } :: assignRanks (r + 1) rest := rfl

theorem assignRanks_map_rank (l : List (String × Int)) :
    ∀ r, (assignRanks r l).map (fun e => e.rank) = List.range' r l.length := by
  induction l with
  | nil => intro r; simp [assignRanks, List.range']
  | cons p rest ih =>
    intro r
    rw [assignRanks_cons, List.map_cons, ih (r + 1), List.length_cons,
        List.range'_succ]

theorem assignRanks_map_points (l : List (String × Int)) :
    ∀ r, (assignRanks r l).map (fun e => e.totalPoints) = l.map (fun p => p.2) := by
  induction l with
  | nil => intro r; simp [assignRanks]
  | cons p rest ih =>
    intro r
    rw [assignRanks_cons, List.map_cons, ih (r + 1), List.map_cons]

theorem assignRanks_length (l : List (String × Int)) :
    ∀ r, (assignRanks r l).length = l.length := by
  induction l with
  | nil => intro r; rfl
  | cons p rest ih =>
    intro r
    show (assignRanks (r + 1) rest).length + 1 = rest.length + 1
    rw [ih (r + 1)]

/-- A sample completion event used for concrete instantiations; its
timestamp comes from the naive default factory. -/
def cEx : StageCompletion :=
  { userId := "u1", moduleId := "m1", cardId := "card1", stage := 2,
    learningType := "verbal", pointsEarned := 100, timeSpent := 30,
    accuracy := 90, completedAt := 1000, completedAtAware := false }

/-- A stored StageRecord used in concrete instantiations, written through
the default naive-timestamp path. -/
def srEx (n : Int) : StageRecord :=
  { cardId := "cardA", pointsEarned := 10, completedAt := n,
    completedAtAware := false, timeSpent := 5, accuracy := 80 }

/-- A stored document with stages 1 and 2 of type verbal completed. -/
def rec12 : UserProgress :=
  { userId := "u1", moduleId := "m1",
    completedStages :=
      [(progressKey 1 "verbal", srEx 1), (progressKey 2 "verbal", srEx 2)],
    totalPoints := 20, highestStage := 2, lastAccessed := 0 }

/-- A stage-3 completion event matching rec12. -/
def cEx3 : StageCompletion :=
  { cEx with stage := 3 }

/-- A local progress document for the merge example: the shared key carries
different data locally (completedAt 99) than remotely (completedAt 1). -/
def localEx : UserProgress :=
  { userId := "u1", moduleId := "m1",
    completedStages := [("1-fill_blank", srEx 99), ("2-verbal", srEx 2)],
    totalPoints := 30, highestStage := 2, lastAccessed := 0 }

/-- The remote snapshot for the merge example. -/
def webEx : RemoteProgress :=
  { completedStages := [("1-fill_blank", srEx 1)],
    totalPoints := 50, highestStage := 1 }

/-- A local progress document whose user holds 45 points in total. -/
def doc45 : UserProgress :=
  { userId := "u1", moduleId := "m1", completedStages := [],
    totalPoints := 45, highestStage := 1, lastAccessed := 0 }

/-- A one-module document with the given user and total, for the
leaderboard example. -/
def docEx (u : String) (p : Int) : UserProgress :=
  { userId := u, moduleId := "m", completedStages := [], totalPoints := p,
    highestStage := 1, lastAccessed := 0 }

/-- A leaderboard entry as built locally (name and email always absent). -/
def entryEx (u : String) (r : Nat) (p : Int) : LeaderboardEntry :=
  { userId := u, rank := r, totalPoints := p, name := none, email := none }

/-- A stage record worth 7 points completed at time t, whose stored
timestamp is timezone aware when the flag is true. -/
def srWeek (t : Int) (tzAware : Bool) : StageRecord :=
  { cardId := "cardA", pointsEarned := 7, completedAt := t,
    completedAtAware := tzAware, timeSpent := 5, accuracy := 80 }

/-- An event written through the default naive-timestamp path, completed
exactly seven days before the instant 1000000. -/
def cNaive7 : StageCompletion :=
  { userId := "u1", moduleId := "m1", cardId := "card1", stage := 1,
    learningType := "verbal", pointsEarned := 7, timeSpent := 30,
    accuracy := 90, completedAt := 1000000 - 7 * 86400,
    completedAtAware := false }

/-! ## Claim theorems -/

/-- C1: when the stored record for (userId, moduleId) already contains the
key of the submitted event, recordCompletion returns pointsAwarded 0 with
alreadyCompleted true, leaves the store untouched and posts nothing; hence
a second submission of the same completion awards nothing, changes nothing,
and the stored totalPoints after both calls carries the single award. -/
theorem c1_idempotent_completion (store : List UserProgress) (c : StageCompletion)
    (hasAuth : Bool) (now now2 : Int) (rOk rOk2 : SyncPayload → Bool) :
    (isCompleted store c = true →
      recordCompletion store c hasAuth now rOk =
        { store := store, pushes := [], syncedCount := 0,
          result := { success := true, pointsAwarded := 0,
                      message := "Stage already completed",
                      alreadyCompleted := true } }) ∧
    (isCompleted store c = false →
      (recordCompletion store c hasAuth now rOk).result.pointsAwarded
          = c.pointsEarned ∧
      (recordCompletion store c hasAuth now rOk).result.alreadyCompleted = false ∧
      (recordCompletion (recordCompletion store c hasAuth now rOk).store
          c hasAuth now2 rOk2).result.pointsAwarded = 0 ∧
      (recordCompletion (recordCompletion store c hasAuth now rOk).store
          c hasAuth now2 rOk2).result.alreadyCompleted = true ∧
      (recordCompletion (recordCompletion store c hasAuth now rOk).store
          c hasAuth now2 rOk2).store
        = (recordCompletion store c hasAuth now rOk).store ∧
      (recordCompletion (recordCompletion store c hasAuth now rOk).store
          c hasAuth now2 rOk2).pushes = [] ∧
      getTotalPoints (recordCompletion (recordCompletion store c hasAuth now rOk).store
          c hasAuth now2 rOk2).store c.userId c.moduleId
        = getTotalPoints store c.userId c.moduleId + c.pointsEarned) := by
  constructor
  · intro hc
    exact recordCompletion_of_completed hasAuth now rOk hc
  · intro hn
    have hafter := @isCompleted_after store c hasAuth now rOk hn
    have hsecond := recordCompletion_of_completed hasAuth now2 rOk2 hafter
    refine ⟨?_, ?_, ?_, ?_, ?_, ?_, ?_⟩
    · rw [recordCompletion_result_of_not_completed hasAuth now rOk hn]
    · rw [recordCompletion_result_of_not_completed hasAuth now rOk hn]
    · rw [hsecond]
    · rw [hsecond]
    · rw [hsecond]
    · rw [hsecond]
    · rw [hsecond]
      exact getTotalPoints_after hn

theorem c1_idempotent_completion_witness :
    isCompleted [] cEx = false ∧
    ((recordCompletion [] cEx true 5 (fun _ => true)).result.pointsAwarded
        = cEx.pointsEarned ∧
      (recordCompletion [] cEx true 5 (fun _ => true)).result.alreadyCompleted = false ∧
      (recordCompletion (recordCompletion [] cEx true 5 (fun _ => true)).store
          cEx true 6 (fun _ => true)).result.pointsAwarded = 0 ∧
      (recordCompletion (recordCompletion [] cEx true 5 (fun _ => true)).store
          cEx true 6 (fun _ => true)).result.alreadyCompleted = true ∧
      (recordCompletion (recordCompletion [] cEx true 5 (fun _ => true)).store
          cEx true 6 (fun _ => true)).store
        = (recordCompletion [] cEx true 5 (fun _ => true)).store ∧
      (recordCompletion (recordCompletion [] cEx true 5 (fun _ => true)).store
          cEx true 6 (fun _ => true)).pushes = [] ∧
      getTotalPoints (recordCompletion (recordCompletion [] cEx true 5 (fun _ => true)).store
          cEx true 6 (fun _ => true)).store cEx.userId cEx.moduleId
        = getTotalPoints [] cEx.userId cEx.moduleId + cEx.pointsEarned) :=
  ⟨by decide,
   (c1_idempotent_completion [] cEx true 5 6 (fun _ => true) (fun _ => true)).2
     (by decide)⟩

/-- C6: remote sync failure never fails the operation.  For a fresh
completion the result is success with pointsAwarded equal to the event
points no matter what every remote push returns; the resulting store is
the one produced with no Authorization header at all (the local mutation
is independent of, and therefore prior to, any replay), and the store,
posted payloads and result do not depend on the remote outcomes. -/
theorem c6_remote_failure_nonfatal (store : List UserProgress)
    (c : StageCompletion) (hasAuth : Bool) (now : Int)
    (rOk rOk2 : SyncPayload → Bool)
    (hn : isCompleted store c = false) :
    (recordCompletion store c hasAuth now rOk).result.success = true ∧
    (recordCompletion store c hasAuth now rOk).result.pointsAwarded
        = c.pointsEarned ∧
    (recordCompletion store c hasAuth now rOk).store
        = (recordCompletion store c false now rOk2).store ∧
    (recordCompletion store c hasAuth now rOk).store
        = (recordCompletion store c hasAuth now rOk2).store ∧
    (recordCompletion store c hasAuth now rOk).pushes
        = (recordCompletion store c hasAuth now rOk2).pushes ∧
    (recordCompletion store c hasAuth now rOk).result
        = (recordCompletion store c hasAuth now rOk2).result := by
  have hind := recordCompletion_oracle_independent store c hasAuth now rOk rOk2
  refine ⟨?_, ?_, ?_, hind.1, hind.2.1, hind.2.2⟩
  · rw [recordCompletion_result_of_not_completed hasAuth now rOk hn]
  · rw [recordCompletion_result_of_not_completed hasAuth now rOk hn]
  · rw [recordCompletion_store_of_not_completed hasAuth now rOk hn,
        recordCompletion_store_of_not_completed false now rOk2 hn]

theorem c6_remote_failure_nonfatal_witness :
    isCompleted [] cEx = false ∧
    ((recordCompletion [] cEx true 5 (fun _ => false)).result.success = true ∧
      (recordCompletion [] cEx true 5 (fun _ => false)).result.pointsAwarded
          = cEx.pointsEarned ∧
      (recordCompletion [] cEx true 5 (fun _ => false)).store
          = (recordCompletion [] cEx false 5 (fun _ => true)).store ∧
      (recordCompletion [] cEx true 5 (fun _ => false)).store
          = (recordCompletion [] cEx true 5 (fun _ => true)).store ∧
      (recordCompletion [] cEx true 5 (fun _ => false)).pushes
          = (recordCompletion [] cEx true 5 (fun _ => true)).pushes ∧
      (recordCompletion [] cEx true 5 (fun _ => false)).result
          = (recordCompletion [] cEx true 5 (fun _ => true)).result) :=
  ⟨by decide,
   c6_remote_failure_nonfatal [] cEx true 5 (fun _ => false) (fun _ => true)
     (by decide)⟩

/-- C10: no input validation.  Every well-typed event whose key is not yet
present is accepted: its StageRecord is stored verbatim (negative points,
stage below 1, accuracy outside the range and unknown learning types
included), totalPoints is incremented by the possibly negative
pointsEarned, and the response reports success with that award.  The
witness drives a stored totalPoints below zero. -/
theorem c10_no_input_validation (store : List UserProgress)
    (c : StageCompletion) (hasAuth : Bool) (now : Int)
    (rOk : SyncPayload → Bool) (hn : isCompleted store c = false) :
    (∃ r, findRecord (recordCompletion store c hasAuth now rOk).store
        c.userId c.moduleId = some r ∧
      lookupStage r.completedStages (progressKey c.stage c.learningType)
        = some (recordOf c)) ∧
    getTotalPoints (recordCompletion store c hasAuth now rOk).store
        c.userId c.moduleId
      = getTotalPoints store c.userId c.moduleId + c.pointsEarned ∧
    (recordCompletion store c hasAuth now rOk).result.success = true ∧
    (recordCompletion store c hasAuth now rOk).result.pointsAwarded
        = c.pointsEarned := by
  refine ⟨⟨afterRecord store c now, findRecord_after hn,
          afterRecord_lookup_self store c now hn⟩,
         getTotalPoints_after hn, ?_, ?_⟩
  · rw [recordCompletion_result_of_not_completed hasAuth now rOk hn]
  · rw [recordCompletion_result_of_not_completed hasAuth now rOk hn]

/-- An invalid event: negative points, stage 0, unknown learning type,
accuracy out of range.  The code still stores it. -/
def cBad : StageCompletion :=
  { userId := "u1", moduleId := "m1", cardId := "card1", stage := 0,
    learningType := "bogus_type", pointsEarned := -50, timeSpent := -3,
    accuracy := 250, completedAt := 1000, completedAtAware := false }

/-- C4: with a remote snapshot present, the merged view returns the remote
totalPoints and highestStage unchanged; every key of the remote stages
keeps its remote data in the merge (local never overwrites remote); every
local key absent from remote is copied into the merged stages with its
local data. -/
theorem c4_merge_remote_wins_local_fills (wp : RemoteProgress)
    (store : List UserProgress) (u m : String) (lp : UserProgress)
    (hl : findRecord store u m = some lp) :
    (getUserProgress (some wp) store u m).totalPoints = wp.totalPoints ∧
    (getUserProgress (some wp) store u m).highestStage = wp.highestStage ∧
    (∀ k v, lookupStage wp.completedStages k = some v →
      lookupStage (getUserProgress (some wp) store u m).completedStages k
        = some v) ∧
    (∀ k v, lookupStage wp.completedStages k = none →
      lookupStage lp.completedStages k = some v →
      lookupStage (getUserProgress (some wp) store u m).completedStages k
        = some v) := by
  have hview : getUserProgress (some wp) store u m =
      { completedStages := mergeStages wp.completedStages lp.completedStages,
        totalPoints := wp.totalPoints, highestStage := wp.highestStage } := by
    simp [getUserProgress, hl]
  rw [hview]
  refine ⟨rfl, rfl, ?_, ?_⟩
  · intro k v h
    exact mergeStages_lookup_of_web h
  · intro k v hw hloc
    exact mergeStages_lookup_of_local lp.completedStages wp.completedStages k v hw hloc

theorem c4_merge_remote_wins_local_fills_witness :
    findRecord [localEx] "u1" "m1" = some localEx ∧
    ((getUserProgress (some webEx) [localEx] "u1" "m1").totalPoints
        = webEx.totalPoints ∧
      (getUserProgress (some webEx) [localEx] "u1" "m1").highestStage
        = webEx.highestStage ∧
      lookupStage (getUserProgress (some webEx) [localEx] "u1" "m1").completedStages
        "1-fill_blank" = some (srEx 1) ∧
      lookupStage (getUserProgress (some webEx) [localEx] "u1" "m1").completedStages
        "2-verbal" = some (srEx 2)) ∧
    (getUserProgress (some webEx) [localEx] "u1" "m1").completedStages
      = [("1-fill_blank", srEx 1), ("2-verbal", srEx 2)] := by
  have h := c4_merge_remote_wins_local_fills webEx [localEx] "u1" "m1" localEx
    (by decide)
  refine ⟨by decide, ⟨h.1, h.2.1, ?_, ?_⟩, by decide⟩
  · exact h.2.2.1 "1-fill_blank" (srEx 1) (by decide)
  · exact h.2.2.2 "2-verbal" (srEx 2) (by decide) (by decide)

/-- C7: the locally built leaderboard assigns ranks 1..N sequentially with
no gaps, orders point totals descending, and on the spec's example breaks
the 30-point tie by input encounter order: users A, B, C, D with totals
30, 10, 30, 20 and A before C rank as A 1, C 2, D 3, B 4. -/
theorem c7_local_leaderboard_contract (store : List UserProgress) :
    ((buildLocalLeaderboard store).map (fun e => e.rank)
        = List.range' 1 (buildLocalLeaderboard store).length) ∧
    ((buildLocalLeaderboard store).map (fun e => e.totalPoints)).Pairwise
        (fun a b => b ≤ a) ∧
    buildLocalLeaderboard [docEx "A" 30, docEx "B" 10, docEx "C" 30, docEx "D" 20]
      = [entryEx "A" 1 30, entryEx "C" 2 30, entryEx "D" 3 20, entryEx "B" 4 10] := by
  refine ⟨?_, ?_, by decide⟩
  · unfold buildLocalLeaderboard
    rw [assignRanks_map_rank, assignRanks_length]
  · unfold buildLocalLeaderboard
    rw [assignRanks_map_points, List.pairwise_map]
    exact sortDesc_pairwise _

/-- C8: getUserStats keeps the remote totalPoints and weeklyPoints when
they are non-zero and falls back to the locally computed values when the
remote reports zero; in particular remote 0 with local 45 yields 45. -/
theorem c8_stats_truthiness_fallback (web : WebStats) (store : List UserProgress)
    (u : String) (now : Int) :
    (web.totalPoints ≠ 0 →
      (getUserStats web store u now).totalPoints = web.totalPoints) ∧
    (web.totalPoints = 0 →
      (getUserStats web store u now).totalPoints = localTotalPoints store u) ∧
    (web.weeklyPoints ≠ 0 →
      (getUserStats web store u now).weeklyPoints = web.weeklyPoints) ∧
    (web.weeklyPoints = 0 →
      (getUserStats web store u now).weeklyPoints
        = localWeeklyPoints store u now) := by
  refine ⟨?_, ?_, ?_, ?_⟩ <;> intro h <;> simp [getUserStats, pyOrInt, h]

theorem c8_stats_truthiness_fallback_witness :
    ((0 : Int) = 0) ∧
    (getUserStats { totalPoints := 0, weeklyPoints := 0, rank := none }
        [doc45] "u1" 0).totalPoints = localTotalPoints [doc45] "u1" ∧
    localTotalPoints [doc45] "u1" = 45 ∧
    (getUserStats { totalPoints := 0, weeklyPoints := 0, rank := none }
        [doc45] "u1" 0).totalPoints = 45 :=
  ⟨rfl,
   (c8_stats_truthiness_fallback
       { totalPoints := 0, weeklyPoints := 0, rank := none } [doc45] "u1" 0).2.1 rfl,
   by decide, by decide⟩

/-- C9: code bug.  The source compares the parsed completedAt with the
timezone-aware one_week_ago inside try/except-continue; the request
model's default timestamp factory datetime.utcnow() is naive, so for
every record this backend writes on its default path the comparison
raises TypeError and the entry is skipped.  A stage record worth 7 points
completed exactly seven days ago therefore contributes nothing to the
local weekly points, against the claim, end to end through the write path
and getUserStats; only a timezone-aware stored timestamp is compared at
all, and for those the cutoff is indeed inclusive (seven days ago counts,
eight days ago does not). -/
theorem c9_weekly_naive_timestamps_skipped :
    stageWeeklyPoints 1000000 [("1-verbal", srWeek (1000000 - 7 * 86400) false)]
        = 0 ∧
    (srWeek (1000000 - 7 * 86400) false).pointsEarned = 7 ∧
    (srWeek (1000000 - 7 * 86400) false).completedAt = 1000000 - 7 * 86400 ∧
    stageWeeklyPoints 1000000 [("1-verbal", srWeek (1000000 - 7 * 86400) true)]
        = 7 ∧
    stageWeeklyPoints 1000000 [("1-verbal", srWeek (1000000 - 8 * 86400) true)]
        = 0 ∧
    localWeeklyPoints (recordCompletion [] cNaive7 false 0 (fun _ => true)).store
        "u1" 1000000 = 0 ∧
    (getUserStats { totalPoints := 0, weeklyPoints := 0, rank := none }
        (recordCompletion [] cNaive7 false 0 (fun _ => true)).store
        "u1" 1000000).weeklyPoints = 0 := by
  refine ⟨by decide, by decide, by decide, by decide, by decide, by decide,
    by decide⟩

/-- C5: for records touched only by recordCompletion, totalPoints equals
the sum of pointsEarned over completedStages after every operation, on
both the create-new-record and the update-existing-record path. -/
theorem c5_total_points_invariant (store : List UserProgress)
    (c : StageCompletion) (hasAuth : Bool) (now : Int)
    (rOk : SyncPayload → Bool)
    (hinv : ∀ r ∈ store, pointsConsistent r) :
    ∀ r ∈ (recordCompletion store c hasAuth now rOk).store, pointsConsistent r := by
  intro r hr
  cases hb : isCompleted store c with
  | true =>
    rw [recordCompletion_of_completed hasAuth now rOk hb] at hr
    exact hinv r hr
  | false =>
    rw [recordCompletion_store_of_not_completed hasAuth now rOk hb] at hr
    split at hr
    case h_1 ex heq =>
      rcases updateRecord_mem hr with hmem | rfl
      · exact hinv r hmem
      · have hex := hinv ex (findRecord_mem heq)
        have hnone := lookupStage_of_not_completed hb heq
        unfold pointsConsistent afterRecord
        rw [heq]
        simp only
        rw [dictInsert_of_none _ hnone, sumPoints_append]
        unfold pointsConsistent at hex
        simp only [recordOf]
        omega
    case h_2 heq =>
      rcases List.mem_append.mp hr with hmem | hmem
      · exact hinv r hmem
      · rw [List.mem_singleton] at hmem
        subst hmem
        unfold pointsConsistent afterRecord
        rw [heq]
        simp [sumPoints, recordOf]

theorem c5_total_points_invariant_witness :
    (∀ r ∈ [rec12], pointsConsistent r) ∧
    ∀ r ∈ (recordCompletion [rec12] cEx3 true 5 (fun _ => true)).store,
      pointsConsistent r :=
  ⟨by
    intro r hr
    rw [List.mem_singleton] at hr
    subst hr
    unfold pointsConsistent
    decide,
   c5_total_points_invariant [rec12] cEx3 true 5 (fun _ => true)
     (by
       intro r hr
       rw [List.mem_singleton] at hr
       subst hr
       unfold pointsConsistent
       decide)⟩

/-- C2 counterexample: completing stage 2 with no stored prior stage posts
only a stage-2 payload; the missing stage 1 is skipped, not replayed with
synthetic defaults, so the claimed gap filling does not happen. -/
theorem c2_counterexample :
    (recordCompletion [] cEx true 5 (fun _ => true)).pushes.map
        (fun p => p.stage) = [2] ∧
    ¬ ∃ p ∈ (recordCompletion [] cEx true 5 (fun _ => true)).pushes,
        p.stage = 1 := by
  constructor
  · decide
  · decide

/-- C2 amended: in the progressive replay loop, the stage equal to the
event's own stage gets a payload built from the event; a prior stage whose
key is stored gets a payload from the stored record with passed true (the
synthetic defaults 60 and 100 in the source only substitute for fields
missing from a stored entry, which records written by this code always
carry); a prior stage whose key is absent is skipped: no payload is posted
for it.  The posted list is exactly the loop over stages 1..event.stage
against the freshly mutated document. -/
theorem c2_replay_gap_behavior (c : StageCompletion)
    (stages : List (String × StageRecord)) (i : Int) :
    (i = c.stage →
      syncPayloadFor c stages i =
        some { moduleId := c.moduleId, cardId := c.cardId,
               learningType := learningTypeMap c.learningType, stage := i,
               timeSpent := c.timeSpent, passed := c.pointsEarned > 0,
               accuracy := c.accuracy }) ∧
    (i ≠ c.stage →
      ∀ sd, lookupStage stages (progressKey i c.learningType) = some sd →
        syncPayloadFor c stages i =
          some { moduleId := c.moduleId, cardId := sd.cardId,
                 learningType := learningTypeMap c.learningType, stage := i,
                 timeSpent := sd.timeSpent, passed := true,
                 accuracy := sd.accuracy }) ∧
    (i ≠ c.stage →
      lookupStage stages (progressKey i c.learningType) = none →
        syncPayloadFor c stages i = none) ∧
    ∀ store now rOk, isCompleted store c = false →
      (recordCompletion store c true now rOk).pushes =
        (stageNums c.stage).filterMap
          (syncPayloadFor c (afterRecord store c now).completedStages) := by
  refine ⟨?_, ?_, ?_, ?_⟩
  · intro h
    simp [syncPayloadFor, h]
  · intro h sd hsd
    simp [syncPayloadFor, h, hsd]
  · intro h hnone
    simp [syncPayloadFor, h, hnone]
  · intro store now rOk hn
    rw [recordCompletion_pushes_of_not_completed true now rOk hn]
    simp [buildSyncPayloads]

theorem c2_replay_gap_behavior_witness :
    ((2 : Int) = cEx.stage →
      syncPayloadFor cEx [] 2 =
        some { moduleId := cEx.moduleId, cardId := cEx.cardId,
               learningType := learningTypeMap cEx.learningType, stage := 2,
               timeSpent := cEx.timeSpent, passed := cEx.pointsEarned > 0,
               accuracy := cEx.accuracy }) ∧
    ((2 : Int) ≠ cEx.stage →
      ∀ sd, lookupStage [] (progressKey 2 cEx.learningType) = some sd →
        syncPayloadFor cEx [] 2 =
          some { moduleId := cEx.moduleId, cardId := sd.cardId,
                 learningType := learningTypeMap cEx.learningType, stage := 2,
                 timeSpent := sd.timeSpent, passed := true,
                 accuracy := sd.accuracy }) ∧
    ((2 : Int) ≠ cEx.stage →
      lookupStage [] (progressKey 2 cEx.learningType) = none →
        syncPayloadFor cEx [] 2 = none) ∧
    ∀ store now rOk, isCompleted store cEx = false →
      (recordCompletion store cEx true now rOk).pushes =
        (stageNums cEx.stage).filterMap
          (syncPayloadFor cEx (afterRecord store cEx now).completedStages) :=
  c2_replay_gap_behavior cEx [] 2

/-- C3: completing stage N when stages 1..N-1 of the same learning type
are stored (and stage N is not) posts exactly N payloads whose stage
numbers are 1, 2, ..., N in ascending order; the posting loop is a
sequential fold over that list. -/
theorem c3_progressive_replay_order (store : List UserProgress)
    (c : StageCompletion) (now : Int) (rOk : SyncPayload → Bool)
    (ex : UserProgress)
    (hf : findRecord store c.userId c.moduleId = some ex)
    (hprior : ∀ i : Int, 1 ≤ i → i < c.stage →
      (lookupStage ex.completedStages (progressKey i c.learningType)).isSome = true)
    (hnew : lookupStage ex.completedStages
      (progressKey c.stage c.learningType) = none) :
    (recordCompletion store c true now rOk).pushes.map (fun p => p.stage)
        = stageNums c.stage ∧
    (recordCompletion store c true now rOk).pushes.length = c.stage.toNat := by
  have hn : isCompleted store c = false := by
    unfold isCompleted
    rw [hf]
    change (lookupStage ex.completedStages
      (progressKey c.stage c.learningType)).isSome = false
    rw [hnew]
    rfl
  have hstages : (afterRecord store c now).completedStages
      = ex.completedStages ++ [(progressKey c.stage c.learningType, recordOf c)] := by
    unfold afterRecord
    rw [hf]
    exact dictInsert_of_none _ hnew
  rw [recordCompletion_pushes_of_not_completed true now rOk hn, if_pos rfl,
      hstages]
  unfold buildSyncPayloads
  have hall : ∀ i ∈ stageNums c.stage,
      ∃ p, syncPayloadFor c
          (ex.completedStages ++
            [(progressKey c.stage c.learningType, recordOf c)]) i = some p ∧
        p.stage = i := by
    intro i hi
    rw [mem_stageNums] at hi
    have hpay : (syncPayloadFor c
        (ex.completedStages ++
          [(progressKey c.stage c.learningType, recordOf c)]) i).isSome = true := by
      by_cases hic : i = c.stage
      · simp [syncPayloadFor, hic]
      · have hlt : i < c.stage := lt_of_le_of_ne hi.2 hic
        have hsome := hprior i hi.1 hlt
        cases hsd : lookupStage ex.completedStages (progressKey i c.learningType) with
        | none => rw [hsd] at hsome; simp at hsome
        | some sd =>
          simp [syncPayloadFor, hic, lookupStage_append_of_some _ hsd]
    obtain ⟨p, hp⟩ := Option.isSome_iff_exists.mp hpay
    exact ⟨p, hp, syncPayloadFor_stage hp⟩
  constructor
  · exact filterMap_map_eq_of_forall _ _ _ hall
  · have hlen := congrArg List.length (filterMap_map_eq_of_forall _ _ _ hall)
    rw [List.length_map, stageNums_length] at hlen
    exact hlen

theorem c3_progressive_replay_order_witness :
    ((recordCompletion [rec12] cEx3 true 7 (fun _ => true)).pushes.map
        (fun p => p.stage) = stageNums cEx3.stage ∧
      (recordCompletion [rec12] cEx3 true 7 (fun _ => true)).pushes.length
        = cEx3.stage.toNat) ∧
    stageNums cEx3.stage = [1, 2, 3] ∧ cEx3.stage.toNat = 3 :=
  ⟨c3_progressive_replay_order [rec12] cEx3 7 (fun _ => true) rec12
      (by decide)
      (by
        intro i h1 h2
        have h2' : i < 3 := h2
        have hi : i = 1 ∨ i = 2 := by omega
        rcases hi with rfl | rfl <;> decide)
      (by decide),
   by decide, by decide⟩

theorem c10_no_input_validation_witness :
    isCompleted [] cBad = false ∧
    ((∃ r, findRecord (recordCompletion [] cBad true 0 (fun _ => true)).store
        cBad.userId cBad.moduleId = some r ∧
      lookupStage r.completedStages (progressKey cBad.stage cBad.learningType)
        = some (recordOf cBad)) ∧
    getTotalPoints (recordCompletion [] cBad true 0 (fun _ => true)).store
        cBad.userId cBad.moduleId
      = getTotalPoints [] cBad.userId cBad.moduleId + cBad.pointsEarned ∧
    (recordCompletion [] cBad true 0 (fun _ => true)).result.success = true ∧
    (recordCompletion [] cBad true 0 (fun _ => true)).result.pointsAwarded
        = cBad.pointsEarned) ∧
    getTotalPoints (recordCompletion [] cBad true 0 (fun _ => true)).store
        cBad.userId cBad.moduleId = -50 ∧
    getTotalPoints (recordCompletion [] cBad true 0 (fun _ => true)).store
        cBad.userId cBad.moduleId < 0 :=
  ⟨by decide,
   c10_no_input_validation [] cBad true 0 (fun _ => true) (by decide),
   by decide, by decide⟩

end IRememberIt
